import Mathlib

/-!
Verification of the countdown-timer tool server.

The development shallowly embeds the timer store and service layer of
`src/services/timerService.ts` (exported through `src/services/mcpService.ts`),
the REST validation of `src/routes/rest.ts` and the frontend control route,
the static preset list of `src/config/presets.ts`, and the widget-side sync
reconciliation (`syncWithServer` in the widget source).

Modelling conventions:
* JavaScript `Map<string, Timer>` keyed by `timer.id` is embedded as an
  insertion-ordered list with the map operations `mapGet`, `mapSet`,
  `mapDelete` (first-matching-key semantics; a JS map never holds a
  duplicate key, which in the list embedding becomes the `Nodup`
  well-formedness hypothesis on the key list where it matters).
* JS numbers are embedded as `ℚ` (the code performs only exact
  arithmetic: comparisons, subtraction by 1, floor/remainder by 60).
* Timestamps (`Date.now()` / `new Date().toISOString()`) are opaque
  external inputs, passed as a `now : Nat` argument where the source
  reads the clock.
* `generateTimerId` draws on the clock and `Math.random`; its only
  relevant property is freshness, embedded as a counter `nextId`
  threaded through the store state.
-/

/-- The four timer states of `Timer.status` in `src/types/timer.ts`. -/
inductive TimerStatus
  | running
  | paused
  | stopped
  | completed
deriving DecidableEq, Repr

/-- The `Timer` record of `src/types/timer.ts`.  `id` is the opaque
generated identifier (embedded as `Nat`), `completedAt` the optional
completion timestamp. -/
structure Timer where
  id : Nat
  name : String
  durationSeconds : ℚ
  remainingSeconds : ℚ
  status : TimerStatus
  createdAt : Nat
  completedAt : Option Nat
deriving DecidableEq, Repr

/-- `Map.get(i)`: first entry whose key equals `i`. -/
def keyedGet {α : Type} (key : α → Nat) : List α → Nat → Option α
  | [], _ => none
  | u :: rest, i => if key u == i then some u else keyedGet key rest i

/-- `Map.set(key t, t)`: replace the entry with the same key in place,
or append a new entry. -/
def keyedSet {α : Type} (key : α → Nat) : List α → α → List α
  | [], t => [t]
  | u :: rest, t => if key u == key t then t :: rest else u :: keyedSet key rest t

/-- `Map.delete(i)`: remove the entry with key `i`. -/
def keyedDelete {α : Type} (key : α → Nat) : List α → Nat → List α
  | [], _ => []
  | u :: rest, i => if key u == i then rest else u :: keyedDelete key rest i

def mapGet (l : List Timer) (i : Nat) : Option Timer := keyedGet Timer.id l i

def mapSet (l : List Timer) (t : Timer) : List Timer := keyedSet Timer.id l t

def mapDelete (l : List Timer) (i : Nat) : List Timer := keyedDelete Timer.id l i

/-- The module-level mutable state of `timerService.ts`:
`activeTimers : Map<string, Timer>` and `timerHistory : Timer[]`,
plus the id-freshness counter (see the module docstring). -/
structure StoreState where
  activeTimers : List Timer
  timerHistory : List Timer
  nextId : Nat
deriving DecidableEq, Repr

/-- The state at module load: both collections empty. -/
def initialState : StoreState := { activeTimers := [], timerHistory := [], nextId := 0 }

/-- `createTimer(name, durationSeconds)`: build a running timer with
`remainingSeconds = durationSeconds`, a fresh id, and the fallback name
`Timer ${activeTimers.size + 1}` when `name` is falsy, then insert it into
the active set.  Never fails. -/
def createTimer (name : String) (durationSeconds : ℚ) (now : Nat) (s : StoreState) :
    Timer × StoreState :=
  let t : Timer :=
    { id := s.nextId
      name := if name = "" then "Timer " ++ toString (s.activeTimers.length + 1) else name
      durationSeconds := durationSeconds
      remainingSeconds := durationSeconds
      status := .running
      createdAt := now
      completedAt := none }
  (t, { s with activeTimers := mapSet s.activeTimers t, nextId := s.nextId + 1 })

/-- `pauseTimer(timerId)`: succeeds iff the timer is in the active set with
status `running`; sets status `paused` in place. -/
def pauseTimer (i : Nat) (s : StoreState) : Bool × StoreState :=
  match mapGet s.activeTimers i with
  | some t =>
    if t.status = .running then
      (true, { s with activeTimers := mapSet s.activeTimers { t with status := .paused } })
    else (false, s)
  | none => (false, s)

/-- `resumeTimer(timerId)`: succeeds iff the timer is in the active set with
status `paused`; sets status `running` in place. -/
def resumeTimer (i : Nat) (s : StoreState) : Bool × StoreState :=
  match mapGet s.activeTimers i with
  | some t =>
    if t.status = .paused then
      (true, { s with activeTimers := mapSet s.activeTimers { t with status := .running } })
    else (false, s)
  | none => (false, s)

/-- `stopTimer(timerId)`: succeeds iff the timer is active with status
`running` or `paused`; stamps `completedAt`, pushes a snapshot onto the
history, and deletes the timer from the active set. -/
def stopTimer (i : Nat) (now : Nat) (s : StoreState) : Bool × StoreState :=
  match mapGet s.activeTimers i with
  | some t =>
    if t.status = .running ∨ t.status = .paused then
      let t' := { t with status := TimerStatus.stopped, completedAt := some now }
      (true, { s with
        activeTimers := mapDelete (mapSet s.activeTimers t') i
        timerHistory := s.timerHistory ++ [t'] })
    else (false, s)
  | none => (false, s)

/-- `completeTimer(timerId)`: like `stopTimer` but only from `running`,
setting status `completed` and forcing `remainingSeconds` to 0. -/
def completeTimer (i : Nat) (now : Nat) (s : StoreState) : Bool × StoreState :=
  match mapGet s.activeTimers i with
  | some t =>
    if t.status = .running then
      let t' := { t with
        status := TimerStatus.completed
        remainingSeconds := 0
        completedAt := some now }
      (true, { s with
        activeTimers := mapDelete (mapSet s.activeTimers t') i
        timerHistory := s.timerHistory ++ [t'] })
    else (false, s)
  | none => (false, s)

/-- `updateTimer(timerId)` — one tick: only acts on a `running` timer with
`remainingSeconds > 0`; decrements by 1 and, if the result is ≤ 0, calls
`completeTimer`. -/
def updateTimer (i : Nat) (now : Nat) (s : StoreState) : Bool × StoreState :=
  match mapGet s.activeTimers i with
  | some t =>
    if t.status = .running ∧ 0 < t.remainingSeconds then
      let t' := { t with remainingSeconds := t.remainingSeconds - 1 }
      let s' := { s with activeTimers := mapSet s.activeTimers t' }
      if t'.remainingSeconds ≤ 0 then completeTimer i now s'
      else (true, s')
    else (false, s)
  | none => (false, s)

/-- `TIMER_LIMITS.MAX_DURATION` from `src/config` (2 hours). -/
def MAX_DURATION : ℚ := 7200

/-- `startTimer(name, durationSeconds)` of `timerService.ts`: throws (and
catches into an error envelope, embedded as `none`) when
`durationSeconds <= 0` or `durationSeconds > TIMER_LIMITS.MAX_DURATION`;
otherwise creates the timer.  The envelope serialization (text, derived
minutes/seconds, fresh status snapshot) is not needed by any claim about
this function and is omitted; `some` carries the created timer and the
new store state. -/
def startTimer (name : String) (durationSeconds : ℚ) (now : Nat) (s : StoreState) :
    Option (Timer × StoreState) :=
  if durationSeconds ≤ 0 then none
  else if MAX_DURATION < durationSeconds then none
  else some (createTimer name durationSeconds now s)

/-- The `POST /tools/startTimer` route of `src/routes/rest.ts` composed with
`startTimer`: the body field `durationSeconds` is absent or not a number
(`none`), or a number (`some q`).  The route rejects with HTTP 400 when
`!durationSeconds || typeof durationSeconds !== "number"`; the falsy check
also rejects the number 0. -/
def startTimerRestRoute (name : String) (durationSeconds : Option ℚ) (now : Nat)
    (s : StoreState) : Option (Timer × StoreState) :=
  match durationSeconds with
  | none => none
  | some q => if q = 0 then none else startTimer name q now s

/-- `controlTimer(timerId, action)` of `timerService.ts`: the `switch` on the
action string; an unrecognized action falls through leaving
`success = false` and `message = ""`.  Returns (success, message, state). -/
def controlTimer (i : Nat) (action : String) (now : Nat) (s : StoreState) :
    Bool × String × StoreState :=
  if action = "pause" then
    let r := pauseTimer i s
    (r.1, if r.1 then "Timer paused" else "Timer not found or not running", r.2)
  else if action = "resume" then
    let r := resumeTimer i s
    (r.1, if r.1 then "Timer resumed" else "Timer not found or not paused", r.2)
  else if action = "stop" then
    let r := stopTimer i now s
    (r.1, if r.1 then "Timer stopped" else "Timer not found", r.2)
  else (false, "", s)

/-- The `POST /api/timers/:timerId/control` frontend route: rejects with
HTTP 400 (embedded as `.error`) unless the action is one of the three
literals, then delegates to `controlTimer`. -/
def frontendControlRoute (i : Nat) (action : String) (now : Nat) (s : StoreState) :
    Except String (Bool × String × StoreState) :=
  if action = "" ∨ (action ≠ "pause" ∧ action ≠ "resume" ∧ action ≠ "stop") then
    Except.error "action parameter is required and must be pause, resume, or stop"
  else Except.ok (controlTimer i action now s)

/-- The `TimerPreset` record of `src/types/timer.ts`. -/
structure TimerPreset where
  name : String
  durationSeconds : ℚ
  label : String
deriving DecidableEq, Repr

/-- The static preset list `timerPresets` of `src/config/presets.ts`. -/
def timerPresets : List TimerPreset :=
  [ { name := "Quick Break", durationSeconds := 60, label := "1min" },
    { name := "Coffee Break", durationSeconds := 300, label := "5min" },
    { name := "Work Session", durationSeconds := 1500, label := "25min" },
    { name := "Long Break", durationSeconds := 900, label := "15min" },
    { name := "Exercise", durationSeconds := 1800, label := "30min" },
    { name := "Deep Work", durationSeconds := 3600, label := "1hr" } ]

/-- JS `Math.trunc`: rounding toward zero. -/
def jsTrunc (q : ℚ) : Int := if 0 ≤ q then Rat.floor q else -Rat.floor (-q)

/-- One entry of the `activeTimers` array in the `getTimerStatus` envelope:
the timer fields plus the derived `minutesLeft = Math.floor(r / 60)` and
`secondsLeft = r % 60` (JS remainder, truncated division). -/
structure ActiveTimerView where
  id : Nat
  name : String
  remainingSeconds : ℚ
  status : TimerStatus
  minutesLeft : Int
  secondsLeft : ℚ
deriving DecidableEq, Repr

/-- The `structuredContent` of the `getTimerStatus` envelope. -/
structure StatusEnvelope where
  activeTimers : List ActiveTimerView
  presets : List TimerPreset
  history : List Timer
deriving DecidableEq, Repr

/-- `getTimerStatus()` of `timerService.ts`: maps the active set to enriched
views, returns `presets: []` (the source comment reads "Will be injected
from config", but no caller on this path performs the injection) and the
last 20 history entries (`timerHistory.slice(-20)`). -/
def getTimerStatus (s : StoreState) : StatusEnvelope :=
  { activeTimers := s.activeTimers.map (fun t =>
      { id := t.id
        name := t.name
        remainingSeconds := t.remainingSeconds
        status := t.status
        minutesLeft := Rat.floor (t.remainingSeconds / 60)
        secondsLeft := t.remainingSeconds - 60 * (jsTrunc (t.remainingSeconds / 60) : ℚ) })
    presets := []
    history := s.timerHistory.drop (s.timerHistory.length - 20) }

/-! ### Operation sequences over the store (for the invariant claims) -/

/-- The store mutations reachable through the service layer: `createTimer`
(from startTimer), `pauseTimer` / `resumeTimer` / `stopTimer` (from
controlTimer) and `updateTimer` (the 1-second tick loop). -/
inductive StoreOp
  | create (name : String) (d : ℚ)
  | pause (i : Nat)
  | resume (i : Nat)
  | stop (i : Nat)
  | tick (i : Nat)
deriving DecidableEq, Repr

/-- Apply one operation (with the clock reading `now` at which it runs). -/
def applyOp (o : StoreOp) (now : Nat) (s : StoreState) : StoreState :=
  match o with
  | .create n d => (createTimer n d now s).2
  | .pause i => (pauseTimer i s).2
  | .resume i => (resumeTimer i s).2
  | .stop i => (stopTimer i now s).2
  | .tick i => (updateTimer i now s).2

/-- Run a sequence of operations, each paired with its clock reading. -/
def runOps : List (StoreOp × Nat) → StoreState → StoreState
  | [], s => s
  | p :: rest, s => runOps rest (applyOp p.1 p.2 s)

/-- All timer ids present in the store, active set first. -/
def storeIds (s : StoreState) : List Nat :=
  s.activeTimers.map Timer.id ++ s.timerHistory.map Timer.id

/-- The partition invariant: ids are pairwise distinct across the two
collections (never both), every allocated id is present (never neither),
active statuses are `running`/`paused`, history statuses are
`stopped`/`completed`. -/
def StoreInv (s : StoreState) : Prop :=
  (storeIds s).Nodup ∧
  (∀ i ∈ storeIds s, i < s.nextId) ∧
  (∀ i, i < s.nextId → i ∈ storeIds s) ∧
  (∀ t ∈ s.activeTimers, t.status = TimerStatus.running ∨ t.status = TimerStatus.paused) ∧
  (∀ t ∈ s.timerHistory, t.status = TimerStatus.stopped ∨ t.status = TimerStatus.completed)

/-- Every active timer has integral `remainingSeconds ≥ 1`. -/
def ActiveIntInv (s : StoreState) : Prop :=
  ∀ t ∈ s.activeTimers, 1 ≤ t.remainingSeconds ∧ t.remainingSeconds.den = 1

/-- The assumption of claim C10 on an operation: any `create` carries an
integral duration ≥ 1 (other operations are unconstrained). -/
def createArgOk : StoreOp → Bool
  | StoreOp.create _ d => decide (1 ≤ d) && (d.den == 1)
  | _ => true

/-! ### Widget-side sync reconciliation (the dashboard widget source) -/

/-- The widget-local `Timer` record of the dashboard widget. -/
structure WTimer where
  id : Nat
  name : String
  remainingSeconds : ℚ
  status : TimerStatus
  originalDuration : ℚ
deriving DecidableEq, Repr

/-- The widget-local `TimerHistory` record. -/
structure WHistory where
  id : Nat
  name : String
  originalDuration : ℚ
  elapsedSeconds : ℚ
  completedAt : Nat
  status : TimerStatus
deriving DecidableEq, Repr

def wGet (l : List WTimer) (i : Nat) : Option WTimer := keyedGet WTimer.id l i

def wSet (l : List WTimer) (t : WTimer) : List WTimer := keyedSet WTimer.id l t

/-- The history entry `syncWithServer` pushes for a locally-running timer
absent from the server's active set: `elapsedSeconds = originalDuration`,
status `completed`, completed at the current clock reading. -/
def completedEntry (t : WTimer) (now : Nat) : WHistory :=
  { id := t.id, name := t.name, originalDuration := t.originalDuration,
    elapsedSeconds := t.originalDuration, completedAt := now,
    status := TimerStatus.completed }

/-- The removal loop of `syncWithServer`: every local timer whose id is
absent from the fetched active set is deleted locally; if its local status
was `running` it is treated as completed-on-server — a synthesized history
entry is pushed and the notification sound fires.  Returns the kept local
timers, the pushed entries, and the ids for which the sound fired, in
iteration order. -/
def reconcileRemovals (server : List WTimer) (now : Nat) :
    List WTimer → List WTimer × List WHistory × List Nat
  | [] => ([], [], [])
  | t :: rest =>
    let r := reconcileRemovals server now rest
    if server.any (fun st => st.id == t.id) then (t :: r.1, r.2.1, r.2.2)
    else if t.status = TimerStatus.running then
      (r.1, completedEntry t now :: r.2.1, t.id :: r.2.2)
    else (r.1, r.2.1, r.2.2)

/-- One step of the upsert loop of `syncWithServer`: the fetched timer `st`
overwrites the local copy when it is missing or differs in
`remainingSeconds`/`status`. -/
def upsertStep (acc : List WTimer) (st : WTimer) : List WTimer :=
  match wGet acc st.id with
  | some lt =>
    if lt.remainingSeconds ≠ st.remainingSeconds ∨ lt.status ≠ st.status then wSet acc st
    else acc
  | none => wSet acc st

/-- The upsert loop of `syncWithServer` over all fetched timers. -/
def upsertFromServer (server : List WTimer) (localTimers : List WTimer) : List WTimer :=
  server.foldl upsertStep localTimers

/-- The widget-local mutable state touched by the sync: `activeTimers` and
`timerHistory`. -/
structure WidgetState where
  activeTimers : List WTimer
  timerHistory : List WHistory
deriving DecidableEq, Repr

/-- The state part of `syncWithServer` on a successful fetch: the local
history is replaced by the fetched one, the removal loop then appends its
synthesized entries, and the fetched active timers are upserted.  The
second component lists the ids for which the completion sound fired during
this sync. -/
def syncWithServer (serverActive : List WTimer) (serverHistory : List WHistory)
    (now : Nat) (w : WidgetState) : WidgetState × List Nat :=
  let r := reconcileRemovals serverActive now w.activeTimers
  ({ activeTimers := upsertFromServer serverActive r.1
     timerHistory := serverHistory ++ r.2.1 }, r.2.2)

/-- A sample running timer and a sample store used to instantiate the
hypotheses of the store theorems on concrete input. -/
def sampleRunning : Timer :=
  { id := 0, name := "A", durationSeconds := 60, remainingSeconds := 42,
    status := TimerStatus.running, createdAt := 0, completedAt := none }

def samplePaused : Timer :=
  { id := 1, name := "B", durationSeconds := 30, remainingSeconds := 7,
    status := TimerStatus.paused, createdAt := 0, completedAt := none }

def sampleStore : StoreState :=
  { activeTimers := [sampleRunning, samplePaused], timerHistory := [], nextId := 2 }

/-- A one-second running timer, for exercising the completing tick. -/
def sampleOne : Timer :=
  { id := 5, name := "C", durationSeconds := 1, remainingSeconds := 1,
    status := TimerStatus.running, createdAt := 0, completedAt := none }

def sampleOneStore : StoreState :=
  { activeTimers := [sampleOne], timerHistory := [], nextId := 6 }

/-- Operations used to instantiate claim C10 concretely: two valid creates,
ticks that complete the first timer, a pause and a stop. -/
def sampleOps : List (StoreOp × Nat) :=
  [(StoreOp.create "A" 2, 0), (StoreOp.tick 0, 1), (StoreOp.create "B" 7200, 2),
    (StoreOp.pause 1, 3), (StoreOp.tick 0, 4), (StoreOp.stop 1, 5)]

/-- The reconciliation scenario of the spec: a local widget timer X with
`remainingSeconds = 10`, status `running`. -/
def sampleWTimer : WTimer :=
  { id := 7, name := "X", remainingSeconds := 10, status := TimerStatus.running,
    originalDuration := 30 }

def sampleWidget : WidgetState :=
  { activeTimers := [sampleWTimer], timerHistory := [] }

/-! ### Lemmas about the keyed-list embedding of JS `Map` -/

theorem keyedGet_eq_some {α : Type} (key : α → Nat) (l : List α) (i : Nat) (t : α)
    (h : keyedGet key l i = some t) : t ∈ l ∧ key t = i := by
  induction l with
  | nil => simp [keyedGet] at h
  | cons u rest ih =>
    rw [keyedGet] at h
    by_cases hk : key u = i
    · simp only [hk, beq_self_eq_true, if_true] at h
      cases h
      exact ⟨List.mem_cons_self _ _, hk⟩
    · simp only [beq_iff_eq, hk, if_false] at h
      obtain ⟨h1, h2⟩ := ih h
      exact ⟨List.mem_cons_of_mem _ h1, h2⟩

theorem keyedGet_eq_none_iff {α : Type} (key : α → Nat) (l : List α) (i : Nat) :
    keyedGet key l i = none ↔ ∀ u ∈ l, key u ≠ i := by
  induction l with
  | nil => simp [keyedGet]
  | cons u rest ih =>
    by_cases hk : key u = i
    · simp [keyedGet, hk]
    · simp [keyedGet, hk, ih]

theorem keyedGet_keyedSet_self {α : Type} (key : α → Nat) (l : List α) (t : α) :
    keyedGet key (keyedSet key l t) (key t) = some t := by
  induction l with
  | nil => simp [keyedSet, keyedGet]
  | cons u rest ih =>
    by_cases hk : key u = key t
    · simp [keyedSet, hk, keyedGet]
    · simp [keyedSet, hk, keyedGet, ih]

theorem keyedGet_keyedSet_ne {α : Type} (key : α → Nat) (l : List α) (t : α) (j : Nat)
    (h : j ≠ key t) : keyedGet key (keyedSet key l t) j = keyedGet key l j := by
  induction l with
  | nil =>
    simp only [keyedSet, keyedGet]
    rw [if_neg (by simpa using Ne.symm h)]
  | cons u rest ih =>
    simp only [keyedSet]
    by_cases hk : key u = key t
    · have huj : ¬ key u = j := by rw [hk]; exact Ne.symm h
      rw [if_pos (by simpa using hk)]
      simp only [keyedGet]
      rw [if_neg (by simpa using Ne.symm h), if_neg (by simpa using huj)]
    · rw [if_neg (by simpa using hk)]
      simp only [keyedGet]
      by_cases hj : key u = j
      · rw [if_pos (by simpa using hj), if_pos (by simpa using hj)]
      · rw [if_neg (by simpa using hj), if_neg (by simpa using hj), ih]

theorem keyedGet_keyedDelete_self {α : Type} (key : α → Nat) (l : List α) (i : Nat)
    (h : (l.map key).Nodup) : keyedGet key (keyedDelete key l i) i = none := by
  induction l with
  | nil => simp [keyedDelete, keyedGet]
  | cons u rest ih =>
    simp only [List.map_cons, List.nodup_cons] at h
    by_cases hk : key u = i
    · rw [keyedDelete, if_pos (by simpa using hk)]
      rw [keyedGet_eq_none_iff]
      intro w hw
      subst hk
      intro hcontra
      exact h.1 (hcontra ▸ List.mem_map_of_mem key hw)
    · rw [keyedDelete, if_neg (by simpa using hk), keyedGet, if_neg (by simpa using hk)]
      exact ih h.2

theorem keyedGet_keyedDelete_ne {α : Type} (key : α → Nat) (l : List α) (i j : Nat)
    (h : j ≠ i) : keyedGet key (keyedDelete key l i) j = keyedGet key l j := by
  induction l with
  | nil => simp [keyedDelete]
  | cons u rest ih =>
    simp only [keyedDelete]
    by_cases hk : key u = i
    · have huj : ¬ key u = j := by rw [hk]; exact Ne.symm h
      rw [if_pos (by simpa using hk)]
      conv_rhs => rw [keyedGet]
      rw [if_neg (by simpa using huj)]
    · rw [if_neg (by simpa using hk)]
      simp only [keyedGet]
      by_cases hj : key u = j
      · rw [if_pos (by simpa using hj), if_pos (by simpa using hj)]
      · rw [if_neg (by simpa using hj), if_neg (by simpa using hj), ih]

theorem mem_keyedSet {α : Type} (key : α → Nat) (l : List α) (t u : α)
    (h : u ∈ keyedSet key l t) : u = t ∨ u ∈ l := by
  induction l with
  | nil => simpa [keyedSet] using h
  | cons w rest ih =>
    simp only [keyedSet] at h
    by_cases hk : key w = key t
    · rw [if_pos (by simpa using hk)] at h
      rcases List.mem_cons.mp h with h1 | h1
      · exact Or.inl h1
      · exact Or.inr (List.mem_cons_of_mem _ h1)
    · rw [if_neg (by simpa using hk)] at h
      rcases List.mem_cons.mp h with h1 | h1
      · exact Or.inr (h1 ▸ List.mem_cons_self _ _)
      · rcases ih h1 with h2 | h2
        · exact Or.inl h2
        · exact Or.inr (List.mem_cons_of_mem _ h2)

theorem mem_keyedDelete {α : Type} (key : α → Nat) (l : List α) (i : Nat) (u : α)
    (h : u ∈ keyedDelete key l i) : u ∈ l := by
  induction l with
  | nil => simp [keyedDelete] at h
  | cons w rest ih =>
    simp only [keyedDelete] at h
    by_cases hk : key w = i
    · rw [if_pos (by simpa using hk)] at h
      exact List.mem_cons_of_mem _ h
    · rw [if_neg (by simpa using hk)] at h
      rcases List.mem_cons.mp h with h1 | h1
      · exact h1 ▸ List.mem_cons_self _ _
      · exact List.mem_cons_of_mem _ (ih h1)

theorem keyedSet_map_key_of_mem {α : Type} (key : α → Nat) (l : List α) (t : α)
    (h : ∃ w ∈ l, key w = key t) : (keyedSet key l t).map key = l.map key := by
  induction l with
  | nil => simp at h
  | cons u rest ih =>
    by_cases hk : key u = key t
    · simp [keyedSet, hk]
    · obtain ⟨w, hw, hwk⟩ := h
      rcases List.mem_cons.mp hw with h1 | h1
      · exact absurd (h1 ▸ hwk) hk
      · simp [keyedSet, hk, ih ⟨w, h1, hwk⟩]

theorem keyedSet_map_key_of_not_mem {α : Type} (key : α → Nat) (l : List α) (t : α)
    (h : ∀ w ∈ l, key w ≠ key t) : (keyedSet key l t).map key = l.map key ++ [key t] := by
  induction l with
  | nil => simp [keyedSet]
  | cons u rest ih =>
    have hk : key u ≠ key t := h u (List.mem_cons_self _ _)
    simp [keyedSet, hk, ih (fun w hw => h w (List.mem_cons_of_mem _ hw))]

theorem keyedDelete_map_key {α : Type} (key : α → Nat) (l : List α) (i : Nat) :
    (keyedDelete key l i).map key = (l.map key).erase i := by
  induction l with
  | nil => simp [keyedDelete]
  | cons u rest ih =>
    by_cases hk : key u = i
    · simp [keyedDelete, hk, List.erase_cons]
    · simp [keyedDelete, hk, List.erase_cons, ih]

/-! ### Claim C1 — StartTimer duration validation -/

/-- C1 (counterexample): the claim says StartTimer fails with
`InvalidDuration` whenever `durationSeconds` is absent, not an integer, or
outside [1, 7200].  The rational 1/2 is not an integer (so the claim says
the call must fail), yet the REST route and the service accept it: the
route only checks falsiness and `typeof === "number"`, and the service only
checks `<= 0` and `> 7200`. -/
theorem claim1_counterexample :
    (¬ ((Rat.mk' 1 2).den = 1 ∧ 1 ≤ (Rat.mk' 1 2) ∧ (Rat.mk' 1 2) ≤ 7200)) ∧
    (startTimerRestRoute "Timer" (some (Rat.mk' 1 2)) 0 initialState).isSome = true := by
  constructor
  · intro hc
    exact absurd hc.1 (by decide)
  · decide

/-- C1 (amended): StartTimer fails with `InvalidDuration` iff
`durationSeconds` is absent, not a number, or not in the half-open interval
(0, 7200]; in particular 0 and 7201 fail while 1 and 7200 succeed.
Integrality is not checked on the REST/service path. -/
theorem claim1_startTimer_invalid_iff (name : String) (now : Nat) (s : StoreState) :
    startTimerRestRoute name none now s = none ∧
    (∀ d : ℚ, (startTimerRestRoute name (some d) now s = none ↔ (d ≤ 0 ∨ 7200 < d))) := by
  refine ⟨rfl, fun d => ?_⟩
  by_cases h0 : d = 0
  · subst h0
    simp [startTimerRestRoute]
  · simp only [startTimerRestRoute, if_neg h0]
    by_cases h1 : d ≤ 0
    · simp [startTimer, h1]
    · by_cases h2 : MAX_DURATION < d
      · simp only [startTimer, if_neg h1, if_pos h2]
        simp only [MAX_DURATION] at h2
        simp [h1, h2]
      · simp only [startTimer, if_neg h1, if_neg h2]
        simp only [MAX_DURATION] at h2
        simp [h1, h2]

/-! ### Claim C6 — StartTimer on a valid duration -/

/-- C6: for every `durationSeconds` in [1, 7200], `startTimer` succeeds and
creates a timer with `remainingSeconds = durationSeconds` and status
`running`, inserted into the active set; the history is untouched. -/
theorem claim6_startTimer_valid (name : String) (d : ℚ) (now : Nat) (s : StoreState)
    (h1 : 1 ≤ d) (h2 : d ≤ 7200) :
    startTimer name d now s = some (createTimer name d now s) ∧
    (createTimer name d now s).1.remainingSeconds = d ∧
    (createTimer name d now s).1.status = TimerStatus.running ∧
    mapGet (createTimer name d now s).2.activeTimers (createTimer name d now s).1.id =
      some (createTimer name d now s).1 ∧
    (createTimer name d now s).2.timerHistory = s.timerHistory := by
  have hd0 : ¬ d ≤ 0 := not_le.mpr (lt_of_lt_of_le one_pos h1)
  have hdm : ¬ MAX_DURATION < d := not_lt.mpr (by simpa [MAX_DURATION] using h2)
  refine ⟨by simp [startTimer, hd0, hdm], rfl, rfl, ?_, rfl⟩
  simpa [createTimer, mapGet, mapSet] using
    keyedGet_keyedSet_self Timer.id s.activeTimers _

/-- C6 (witness): instantiated at a 300-second "Coffee Break" timer on the
empty store. -/
theorem claim6_witness :
    (1 : ℚ) ≤ 300 ∧ (300 : ℚ) ≤ 7200 ∧
    (startTimer "Coffee Break" 300 0 initialState =
        some (createTimer "Coffee Break" 300 0 initialState) ∧
      (createTimer "Coffee Break" 300 0 initialState).1.remainingSeconds = 300 ∧
      (createTimer "Coffee Break" 300 0 initialState).1.status = TimerStatus.running ∧
      mapGet (createTimer "Coffee Break" 300 0 initialState).2.activeTimers
          (createTimer "Coffee Break" 300 0 initialState).1.id =
        some (createTimer "Coffee Break" 300 0 initialState).1 ∧
      (createTimer "Coffee Break" 300 0 initialState).2.timerHistory =
        initialState.timerHistory) :=
  ⟨by decide, by decide,
    claim6_startTimer_valid "Coffee Break" 300 0 initialState (by decide) (by decide)⟩

/-! ### Claim C4 — stopTimer -/

/-- C4: stopping an active timer (status `running` or `paused`) returns
true, removes the timer from the active set, and appends exactly one
history entry with status `stopped` and `completedAt` set; a second stop on
the same id returns false and changes nothing, and stop on an id absent
from the active set returns false and changes nothing.  The `Nodup`
hypothesis is the JS `Map` unique-key representation invariant. -/
theorem claim4_stopTimer (s : StoreState) (i now now2 : Nat)
    (hnodup : (s.activeTimers.map Timer.id).Nodup) :
    (∀ t, mapGet s.activeTimers i = some t →
      (t.status = TimerStatus.running ∨ t.status = TimerStatus.paused) →
      (stopTimer i now s).1 = true ∧
      mapGet (stopTimer i now s).2.activeTimers i = none ∧
      (stopTimer i now s).2.timerHistory =
        s.timerHistory ++
          [{ t with status := TimerStatus.stopped, completedAt := some now }] ∧
      stopTimer i now2 (stopTimer i now s).2 = (false, (stopTimer i now s).2)) ∧
    (mapGet s.activeTimers i = none → stopTimer i now s = (false, s)) := by
  constructor
  · intro t hget hst
    obtain ⟨hmem, hid⟩ := keyedGet_eq_some Timer.id s.activeTimers i t hget
    have hrun : stopTimer i now s =
        (true, { s with
          activeTimers := mapDelete
            (mapSet s.activeTimers
              { t with status := TimerStatus.stopped, completedAt := some now }) i
          timerHistory := s.timerHistory ++
            [{ t with status := TimerStatus.stopped, completedAt := some now }] }) := by
      simp only [stopTimer, hget]
      rw [if_pos hst]
    have hids : ((mapSet s.activeTimers
        { t with status := TimerStatus.stopped, completedAt := some now }).map Timer.id)
        = s.activeTimers.map Timer.id :=
      keyedSet_map_key_of_mem Timer.id s.activeTimers _ ⟨t, hmem, rfl⟩
    have hnone : mapGet (mapDelete
        (mapSet s.activeTimers
          { t with status := TimerStatus.stopped, completedAt := some now }) i)
        i = none := by
      apply keyedGet_keyedDelete_self
      rw [hids]
      exact hnodup
    refine ⟨by rw [hrun], by rw [hrun]; exact hnone, by rw [hrun], ?_⟩
    rw [hrun]
    simp only [stopTimer]
    rw [show mapGet (mapDelete (mapSet s.activeTimers
      { t with status := TimerStatus.stopped, completedAt := some now }) i) i = none
      from hnone]
  · intro h
    simp [stopTimer, h]

/-- C4 (witness): stopping the running timer of the sample store. -/
theorem claim4_witness :
    (sampleStore.activeTimers.map Timer.id).Nodup ∧
    mapGet sampleStore.activeTimers 0 = some sampleRunning ∧
    (sampleRunning.status = TimerStatus.running ∨
      sampleRunning.status = TimerStatus.paused) ∧
    ((stopTimer 0 9 sampleStore).1 = true ∧
      mapGet (stopTimer 0 9 sampleStore).2.activeTimers 0 = none ∧
      (stopTimer 0 9 sampleStore).2.timerHistory =
        sampleStore.timerHistory ++
          [{ sampleRunning with status := TimerStatus.stopped, completedAt := some 9 }] ∧
      stopTimer 0 11 (stopTimer 0 9 sampleStore).2 = (false, (stopTimer 0 9 sampleStore).2)) :=
  ⟨by decide, by decide, by decide,
    (claim4_stopTimer sampleStore 0 9 11 (by decide)).1 sampleRunning (by decide) (by decide)⟩

/-! ### Claim C5 — pause / resume -/

/-- C5: `pauseTimer` succeeds iff the timer is active with status `running`,
and on success changes only that timer (status becomes `paused`, the record
otherwise unchanged, so `remainingSeconds` is kept), leaving every other
timer, the history, and the id counter unchanged; any failing call leaves
the state exactly as it was.  Symmetrically, `resumeTimer` succeeds iff the
timer is active with status `paused`, setting it `running`. -/
theorem claim5_pause_resume (s : StoreState) (i : Nat) :
    ((pauseTimer i s).1 = true ↔
      ∃ t, mapGet s.activeTimers i = some t ∧ t.status = TimerStatus.running) ∧
    (∀ t, mapGet s.activeTimers i = some t → t.status = TimerStatus.running →
      (pauseTimer i s).2.timerHistory = s.timerHistory ∧
      (pauseTimer i s).2.nextId = s.nextId ∧
      mapGet (pauseTimer i s).2.activeTimers i =
        some { t with status := TimerStatus.paused } ∧
      (∀ j, j ≠ i → mapGet (pauseTimer i s).2.activeTimers j = mapGet s.activeTimers j)) ∧
    ((pauseTimer i s).1 = false → (pauseTimer i s).2 = s) ∧
    ((resumeTimer i s).1 = true ↔
      ∃ t, mapGet s.activeTimers i = some t ∧ t.status = TimerStatus.paused) ∧
    (∀ t, mapGet s.activeTimers i = some t → t.status = TimerStatus.paused →
      (resumeTimer i s).2.timerHistory = s.timerHistory ∧
      (resumeTimer i s).2.nextId = s.nextId ∧
      mapGet (resumeTimer i s).2.activeTimers i =
        some { t with status := TimerStatus.running } ∧
      (∀ j, j ≠ i → mapGet (resumeTimer i s).2.activeTimers j = mapGet s.activeTimers j)) ∧
    ((resumeTimer i s).1 = false → (resumeTimer i s).2 = s) := by
  refine ⟨?_, ?_, ?_, ?_, ?_, ?_⟩
  · constructor
    · intro hsucc
      cases hget : mapGet s.activeTimers i with
      | none => simp [pauseTimer, hget] at hsucc
      | some t =>
        by_cases hst : t.status = TimerStatus.running
        · exact ⟨t, rfl, hst⟩
        · simp [pauseTimer, hget, hst] at hsucc
    · rintro ⟨t, hget, hst⟩
      simp [pauseTimer, hget, hst]
  · intro t hget hst
    obtain ⟨hmem, hid⟩ := keyedGet_eq_some Timer.id s.activeTimers i t hget
    have hrun : pauseTimer i s = (true, { s with
        activeTimers := mapSet s.activeTimers { t with status := TimerStatus.paused } }) := by
      simp [pauseTimer, hget, hst]
    refine ⟨by rw [hrun], by rw [hrun], ?_, ?_⟩
    · rw [hrun]
      have hkey := keyedGet_keyedSet_self Timer.id s.activeTimers
        { t with status := TimerStatus.paused }
      simpa [mapGet, mapSet, hid] using hkey
    · intro j hj
      rw [hrun]
      exact keyedGet_keyedSet_ne Timer.id s.activeTimers _ j (by simpa [hid] using hj)
  · intro hfail
    cases hget : mapGet s.activeTimers i with
    | none => simp [pauseTimer, hget]
    | some t =>
      by_cases hst : t.status = TimerStatus.running
      · simp [pauseTimer, hget, hst] at hfail
      · simp [pauseTimer, hget, hst]
  · constructor
    · intro hsucc
      cases hget : mapGet s.activeTimers i with
      | none => simp [resumeTimer, hget] at hsucc
      | some t =>
        by_cases hst : t.status = TimerStatus.paused
        · exact ⟨t, rfl, hst⟩
        · simp [resumeTimer, hget, hst] at hsucc
    · rintro ⟨t, hget, hst⟩
      simp [resumeTimer, hget, hst]
  · intro t hget hst
    obtain ⟨hmem, hid⟩ := keyedGet_eq_some Timer.id s.activeTimers i t hget
    have hrun : resumeTimer i s = (true, { s with
        activeTimers := mapSet s.activeTimers { t with status := TimerStatus.running } }) := by
      simp [resumeTimer, hget, hst]
    refine ⟨by rw [hrun], by rw [hrun], ?_, ?_⟩
    · rw [hrun]
      have hkey := keyedGet_keyedSet_self Timer.id s.activeTimers
        { t with status := TimerStatus.running }
      simpa [mapGet, mapSet, hid] using hkey
    · intro j hj
      rw [hrun]
      exact keyedGet_keyedSet_ne Timer.id s.activeTimers _ j (by simpa [hid] using hj)
  · intro hfail
    cases hget : mapGet s.activeTimers i with
    | none => simp [resumeTimer, hget]
    | some t =>
      by_cases hst : t.status = TimerStatus.paused
      · simp [resumeTimer, hget, hst] at hfail
      · simp [resumeTimer, hget, hst]

/-- C5 (witness): pausing the running sample timer; frame checked against
the paused neighbour with id 1. -/
theorem claim5_witness :
    mapGet sampleStore.activeTimers 0 = some sampleRunning ∧
    sampleRunning.status = TimerStatus.running ∧
    ((pauseTimer 0 sampleStore).2.timerHistory = sampleStore.timerHistory ∧
      (pauseTimer 0 sampleStore).2.nextId = sampleStore.nextId ∧
      mapGet (pauseTimer 0 sampleStore).2.activeTimers 0 =
        some { sampleRunning with status := TimerStatus.paused } ∧
      mapGet (pauseTimer 0 sampleStore).2.activeTimers 1 =
        mapGet sampleStore.activeTimers 1) := by
  have h := (claim5_pause_resume sampleStore 0).2.1 sampleRunning (by decide) (by decide)
  exact ⟨by decide, by decide, h.1, h.2.1, h.2.2.1, h.2.2.2 1 (by decide)⟩

/-! ### Claim C2 — tick (updateTimer) -/

/-- C2: a tick on a running timer with integral `remainingSeconds > 0`
returns true and decrements `remainingSeconds` by exactly 1; it completes
the timer exactly when the decrement reaches 0 (the dichotomy
`1 < r ∨ r = 1` below), in which case the timer leaves the active set and
history gains one entry with status `completed`, `remainingSeconds = 0` and
`completedAt` set; otherwise the timer stays active with `r - 1` and the
history is untouched.  A tick on a paused timer or an absent id is a no-op
returning false.  The `Nodup` hypothesis is the JS `Map` unique-key
representation invariant; integrality (`den = 1`) is the data-model
invariant established by `claim10_active_remaining_positive`. -/
theorem claim2_tick (s : StoreState) (i now : Nat)
    (hnodup : (s.activeTimers.map Timer.id).Nodup) :
    (mapGet s.activeTimers i = none → updateTimer i now s = (false, s)) ∧
    (∀ t, mapGet s.activeTimers i = some t →
      (t.status = TimerStatus.paused → updateTimer i now s = (false, s)) ∧
      (t.status = TimerStatus.running → t.remainingSeconds.den = 1 →
        0 < t.remainingSeconds →
        (updateTimer i now s).1 = true ∧
        (1 < t.remainingSeconds ∨ t.remainingSeconds = 1) ∧
        (1 < t.remainingSeconds →
          (updateTimer i now s).2.timerHistory = s.timerHistory ∧
          mapGet (updateTimer i now s).2.activeTimers i =
            some { t with remainingSeconds := t.remainingSeconds - 1 }) ∧
        (t.remainingSeconds = 1 →
          mapGet (updateTimer i now s).2.activeTimers i = none ∧
          (updateTimer i now s).2.timerHistory = s.timerHistory ++
            [{ t with status := TimerStatus.completed, remainingSeconds := 0, completedAt := some now }]))) := by
  constructor
  · intro h
    simp [updateTimer, h]
  · intro t hget
    obtain ⟨hmem, hid⟩ := keyedGet_eq_some Timer.id s.activeTimers i t hget
    constructor
    · intro hst
      simp [updateTimer, hget, hst]
    · intro hst hden hpos
      have hnum : ((t.remainingSeconds.num : ℚ)) = t.remainingSeconds :=
        (Rat.den_eq_one_iff t.remainingSeconds).mp hden
      have hnpos : 0 < t.remainingSeconds.num := by
        have : (0 : ℚ) < (t.remainingSeconds.num : ℚ) := by rw [hnum]; exact hpos
        exact_mod_cast this
      have hr1 : 1 ≤ t.remainingSeconds := by
        rw [← hnum]
        exact_mod_cast hnpos
      have hg2 : mapGet (mapSet s.activeTimers
          { t with remainingSeconds := t.remainingSeconds - 1 }) i =
          some { t with remainingSeconds := t.remainingSeconds - 1 } := by
        rw [← hid]
        exact keyedGet_keyedSet_self Timer.id s.activeTimers _
      have hstays : ∀ _ : ¬ (t.remainingSeconds - 1 ≤ 0),
          updateTimer i now s = (true, { s with
            activeTimers := mapSet s.activeTimers { t with remainingSeconds := t.remainingSeconds - 1 } }) := by
        intro hgt
        simp [updateTimer, hget, hst, hpos, hgt]
      have hcompl : ∀ _ : t.remainingSeconds - 1 ≤ 0,
          updateTimer i now s = (true, { s with
            activeTimers := mapDelete (mapSet (mapSet s.activeTimers { t with remainingSeconds := t.remainingSeconds - 1 }) { t with status := TimerStatus.completed, remainingSeconds := 0, completedAt := some now }) i
            timerHistory := s.timerHistory ++ [{ t with status := TimerStatus.completed, remainingSeconds := 0, completedAt := some now }] }) := by
        intro hle
        have hg2b : mapGet (mapSet s.activeTimers { t with remainingSeconds := t.remainingSeconds - 1, status := TimerStatus.running }) i = some { t with remainingSeconds := t.remainingSeconds - 1, status := TimerStatus.running } := by
          rw [← hid]
          exact keyedGet_keyedSet_self Timer.id s.activeTimers _
        simp [updateTimer, hget, hst, hpos, hle, completeTimer, hg2b]
      refine ⟨?_, ?_, ?_, ?_⟩
      · by_cases hdec : t.remainingSeconds - 1 ≤ 0
        · rw [hcompl hdec]
        · rw [hstays hdec]
      · rcases lt_or_eq_of_le hr1 with hlt | heq
        · exact Or.inl hlt
        · exact Or.inr heq.symm
      · intro hlt
        have hgt : ¬ (t.remainingSeconds - 1 ≤ 0) := by
          intro hc
          have : t.remainingSeconds ≤ 1 := by linarith
          exact absurd (lt_of_lt_of_le hlt this) (lt_irrefl _)
        rw [hstays hgt]
        exact ⟨rfl, hg2⟩
      · intro heq
        have hle : t.remainingSeconds - 1 ≤ 0 := by rw [heq]; norm_num
        rw [hcompl hle]
        refine ⟨?_, rfl⟩
        have hmem2 : ({ t with remainingSeconds := t.remainingSeconds - 1 } : Timer) ∈
            mapSet s.activeTimers { t with remainingSeconds := t.remainingSeconds - 1 } :=
          (keyedGet_eq_some Timer.id _ i _ hg2).1
        have hids1 : ((mapSet s.activeTimers { t with remainingSeconds := t.remainingSeconds - 1 }).map Timer.id) = s.activeTimers.map Timer.id :=
          keyedSet_map_key_of_mem Timer.id s.activeTimers _ ⟨t, hmem, rfl⟩
        have hids2 : ((mapSet (mapSet s.activeTimers { t with remainingSeconds := t.remainingSeconds - 1 }) { t with status := TimerStatus.completed, remainingSeconds := 0, completedAt := some now }).map Timer.id) = s.activeTimers.map Timer.id := by
          show ((keyedSet Timer.id (mapSet s.activeTimers { t with remainingSeconds := t.remainingSeconds - 1 }) { t with status := TimerStatus.completed, remainingSeconds := 0, completedAt := some now }).map Timer.id) = s.activeTimers.map Timer.id
          rw [keyedSet_map_key_of_mem Timer.id (mapSet s.activeTimers { t with remainingSeconds := t.remainingSeconds - 1 }) { t with status := TimerStatus.completed, remainingSeconds := 0, completedAt := some now } ⟨{ t with remainingSeconds := t.remainingSeconds - 1 }, hmem2, rfl⟩]
          exact hids1
        apply keyedGet_keyedDelete_self
        rw [hids2]
        exact hnodup

/-- C2 (witness): the tick that brings a running 1-second timer to 0 on a
concrete store. -/
theorem claim2_witness :
    (sampleOneStore.activeTimers.map Timer.id).Nodup ∧
    mapGet sampleOneStore.activeTimers 5 = some sampleOne ∧
    sampleOne.status = TimerStatus.running ∧
    sampleOne.remainingSeconds.den = 1 ∧
    0 < sampleOne.remainingSeconds ∧
    ((updateTimer 5 3 sampleOneStore).1 = true ∧
      (1 < sampleOne.remainingSeconds ∨ sampleOne.remainingSeconds = 1) ∧
      (1 < sampleOne.remainingSeconds →
        (updateTimer 5 3 sampleOneStore).2.timerHistory = sampleOneStore.timerHistory ∧
        mapGet (updateTimer 5 3 sampleOneStore).2.activeTimers 5 =
          some { sampleOne with remainingSeconds := sampleOne.remainingSeconds - 1 }) ∧
      (sampleOne.remainingSeconds = 1 →
        mapGet (updateTimer 5 3 sampleOneStore).2.activeTimers 5 = none ∧
        (updateTimer 5 3 sampleOneStore).2.timerHistory = sampleOneStore.timerHistory ++
          [{ sampleOne with status := TimerStatus.completed, remainingSeconds := 0, completedAt := some 3 }])) :=
  ⟨by decide, by decide, by decide, by decide, by decide,
    ((claim2_tick sampleOneStore 5 3 (by decide)).2 sampleOne (by decide)).2
      (by decide) (by decide) (by decide)⟩

/-! ### Claim C7 — ControlTimer with an unknown action -/

/-- C7: for every action string outside the three literals, the control
operation fails and leaves the store unchanged: the service `switch` falls
through with `success = false`, an empty message, and the untouched state,
and the validating frontend route rejects the request outright.  (The bare
`/tools/controlTimer` route forwards such actions to the service, whose
failure envelope carries no distinguished error kind — only
`success = false` with an empty message.) -/
theorem claim7_controlTimer_unknown_action (i : Nat) (action : String) (now : Nat)
    (s : StoreState)
    (h : action ≠ "pause" ∧ action ≠ "resume" ∧ action ≠ "stop") :
    controlTimer i action now s = (false, "", s) ∧
    frontendControlRoute i action now s =
      Except.error "action parameter is required and must be pause, resume, or stop" := by
  obtain ⟨h1, h2, h3⟩ := h
  constructor
  · simp [controlTimer, h1, h2, h3]
  · simp [frontendControlRoute, h1, h2, h3]

/-- C7 (witness): the unknown action "restart" on the sample store. -/
theorem claim7_witness :
    ("restart" ≠ "pause" ∧ "restart" ≠ "resume" ∧ "restart" ≠ "stop") ∧
    (controlTimer 0 "restart" 4 sampleStore = (false, "", sampleStore) ∧
      frontendControlRoute 0 "restart" 4 sampleStore =
        Except.error "action parameter is required and must be pause, resume, or stop") :=
  ⟨by decide, claim7_controlTimer_unknown_action 0 "restart" 4 sampleStore (by decide)⟩

/-! ### Claim C8 — GetTimerStatus envelope -/

/-- C8 (code bug): the claim says the status envelope's `presets` field
equals the static preset list of `src/config/presets.ts`, but
`getTimerStatus` returns `presets: []` — the injection announced by the
source comment "Will be injected from config" never happens on this path.
Evaluated here on the initial store: the envelope's presets are empty while
the static list has six entries. -/
theorem claim8_presets_not_injected :
    (getTimerStatus initialState).presets = [] ∧
    timerPresets.length = 6 ∧
    timerPresets ≠ [] := by
  refine ⟨rfl, rfl, ?_⟩
  decide

theorem mem_keyedDelete_iff {α : Type} (key : α → Nat) (l : List α) (i : Nat) (u : α)
    (hnd : (l.map key).Nodup) :
    u ∈ keyedDelete key l i ↔ (u ∈ l ∧ key u ≠ i) := by
  induction l with
  | nil => simp [keyedDelete]
  | cons w rest ih =>
    simp only [List.map_cons, List.nodup_cons] at hnd
    by_cases hk : key w = i
    · rw [keyedDelete, if_pos (by simpa using hk)]
      constructor
      · intro hu
        refine ⟨List.mem_cons_of_mem _ hu, ?_⟩
        intro hui
        exact hnd.1 ((hui.trans hk.symm) ▸ List.mem_map_of_mem key hu)
      · rintro ⟨hu, hui⟩
        rcases List.mem_cons.mp hu with h1 | h1
        · exact absurd (h1 ▸ hk) hui
        · exact h1
    · rw [keyedDelete, if_neg (by simpa using hk)]
      constructor
      · intro hu
        rcases List.mem_cons.mp hu with h1 | h1
        · exact ⟨h1 ▸ List.mem_cons_self _ _, h1 ▸ hk⟩
        · obtain ⟨hu2, hui⟩ := (ih hnd.2).mp h1
          exact ⟨List.mem_cons_of_mem _ hu2, hui⟩
      · rintro ⟨hu, hui⟩
        rcases List.mem_cons.mp hu with h1 | h1
        · exact h1 ▸ List.mem_cons_self _ _
        · exact List.mem_cons_of_mem _ ((ih hnd.2).mpr ⟨h1, hui⟩)

theorem rat_int_pos_ge_one (q : ℚ) (hden : q.den = 1) (hpos : 0 < q) : 1 ≤ q := by
  have hq : (q.num : ℚ) = q := (Rat.den_eq_one_iff q).mp hden
  have hnpos : 0 < q.num := by
    have : (0 : ℚ) < (q.num : ℚ) := by rw [hq]; exact hpos
    exact_mod_cast this
  rw [← hq]
  exact_mod_cast hnpos

theorem rat_int_sub_one_den (q : ℚ) (hden : q.den = 1) : (q - 1).den = 1 := by
  have hq : (q.num : ℚ) = q := (Rat.den_eq_one_iff q).mp hden
  have : q - 1 = ((q.num - 1 : ℤ) : ℚ) := by
    push_cast [hq]
    ring
  rw [this]
  exact Rat.den_intCast _

theorem storeInv_initial : StoreInv initialState := by
  refine ⟨?_, ?_, ?_, ?_, ?_⟩ <;> simp [storeIds, initialState, StoreInv]

theorem storeInv_mapSet_active (s : StoreState) (i : Nat) (t t' : Timer)
    (hget : mapGet s.activeTimers i = some t) (hid' : t'.id = t.id)
    (hstat : t'.status = TimerStatus.running ∨ t'.status = TimerStatus.paused)
    (hinv : StoreInv s) :
    StoreInv { s with activeTimers := mapSet s.activeTimers t' } := by
  obtain ⟨hmem, hid⟩ := keyedGet_eq_some Timer.id s.activeTimers i t hget
  obtain ⟨hnd, hlt, hcm, hact, hhist⟩ := hinv
  have hids : (mapSet s.activeTimers t').map Timer.id = s.activeTimers.map Timer.id :=
    keyedSet_map_key_of_mem Timer.id s.activeTimers t' ⟨t, hmem, hid'.symm⟩
  refine ⟨?_, ?_, ?_, ?_, hhist⟩
  · simpa [storeIds, hids] using hnd
  · intro j hj
    apply hlt
    simpa [storeIds, hids] using hj
  · intro j hj
    have := hcm j hj
    simpa [storeIds, hids] using this
  · intro u hu
    rcases mem_keyedSet Timer.id s.activeTimers t' u hu with h1 | h1
    · exact h1 ▸ hstat
    · exact hact u h1

theorem storeInv_move (s : StoreState) (i : Nat) (t t' : Timer)
    (hget : mapGet s.activeTimers i = some t) (hid' : t'.id = t.id)
    (hstat : t'.status = TimerStatus.stopped ∨ t'.status = TimerStatus.completed)
    (hinv : StoreInv s) :
    StoreInv { s with
      activeTimers := mapDelete (mapSet s.activeTimers t') i
      timerHistory := s.timerHistory ++ [t'] } := by
  obtain ⟨hmem, hid⟩ := keyedGet_eq_some Timer.id s.activeTimers i t hget
  obtain ⟨hnd, hlt, hcm, hact, hhist⟩ := hinv
  have hnd' : ((s.activeTimers.map Timer.id) ++ (s.timerHistory.map Timer.id)).Nodup := hnd
  have haN : (s.activeTimers.map Timer.id).Nodup := hnd'.of_append_left
  have hhN : (s.timerHistory.map Timer.id).Nodup := hnd'.of_append_right
  have hdisj : (s.activeTimers.map Timer.id).Disjoint (s.timerHistory.map Timer.id) :=
    List.disjoint_of_nodup_append hnd'
  have hiA : i ∈ s.activeTimers.map Timer.id := hid ▸ List.mem_map_of_mem Timer.id hmem
  have hiH : i ∉ s.timerHistory.map Timer.id := fun hc => hdisj hiA hc
  have hids1 : (mapSet s.activeTimers t').map Timer.id = s.activeTimers.map Timer.id :=
    keyedSet_map_key_of_mem Timer.id s.activeTimers t' ⟨t, hmem, hid'.symm⟩
  have hsetN : ((mapSet s.activeTimers t').map Timer.id).Nodup := by rw [hids1]; exact haN
  have hids2 : (mapDelete (mapSet s.activeTimers t') i).map Timer.id =
      (s.activeTimers.map Timer.id).erase i := by
    show (keyedDelete Timer.id (mapSet s.activeTimers t') i).map Timer.id = _
    rw [keyedDelete_map_key, hids1]
  have htid : t'.id = i := hid'.trans hid
  refine ⟨?_, ?_, ?_, ?_, ?_⟩
  · show ((mapDelete (mapSet s.activeTimers t') i).map Timer.id ++
      ((s.timerHistory ++ [t']).map Timer.id)).Nodup
    rw [hids2, List.map_append, List.map_singleton, htid]
    rw [List.nodup_append]
    refine ⟨haN.erase i, ?_, ?_⟩
    · rw [List.nodup_append]
      refine ⟨hhN, List.nodup_singleton i, ?_⟩
      intro j hj hji
      rw [List.mem_singleton] at hji
      exact hiH (hji ▸ hj)
    · intro j hj hjc
      obtain ⟨hji, hja⟩ := (haN.mem_erase_iff).mp hj
      rcases List.mem_append.mp hjc with hc | hc
      · exact hdisj hja hc
      · exact hji (List.mem_singleton.mp hc)
  · intro j hj
    show j < s.nextId
    rcases List.mem_append.mp hj with hc | hc
    · rw [hids2] at hc
      exact hlt j (List.mem_append.mpr (Or.inl (List.mem_of_mem_erase hc)))
    · rw [List.map_append, List.map_singleton, htid] at hc
      rcases List.mem_append.mp hc with hc2 | hc2
      · exact hlt j (List.mem_append.mpr (Or.inr hc2))
      · rw [List.mem_singleton] at hc2
        exact hc2 ▸ hlt i (List.mem_append.mpr (Or.inl hiA))
  · intro j hj
    have := hcm j hj
    show j ∈ (mapDelete (mapSet s.activeTimers t') i).map Timer.id ++
      ((s.timerHistory ++ [t']).map Timer.id)
    rw [hids2, List.map_append, List.map_singleton, htid]
    rcases List.mem_append.mp this with hc | hc
    · by_cases hji : j = i
      · exact List.mem_append.mpr (Or.inr (List.mem_append.mpr (Or.inr
          (List.mem_singleton.mpr hji))))
      · exact List.mem_append.mpr (Or.inl ((List.mem_erase_of_ne hji).mpr hc))
    · exact List.mem_append.mpr (Or.inr (List.mem_append.mpr (Or.inl hc)))
  · intro u hu
    obtain ⟨hu1, hu2⟩ := (mem_keyedDelete_iff Timer.id _ i u hsetN).mp hu
    rcases mem_keyedSet Timer.id s.activeTimers t' u hu1 with h1 | h1
    · exact absurd (h1 ▸ htid) hu2
    · exact hact u h1
  · intro u hu
    rcases List.mem_append.mp hu with h1 | h1
    · exact hhist u h1
    · rw [List.mem_singleton] at h1
      exact h1 ▸ hstat

theorem storeInv_insert_fresh (s : StoreState) (T : Timer) (hTid : T.id = s.nextId)
    (hTstat : T.status = TimerStatus.running) (hinv : StoreInv s) :
    StoreInv { s with activeTimers := mapSet s.activeTimers T, nextId := s.nextId + 1 } := by
  obtain ⟨hnd, hlt, hcm, hact, hhist⟩ := hinv
  have hfresh : ∀ w ∈ s.activeTimers, w.id ≠ T.id := by
    intro w hw
    rw [hTid]
    exact Nat.ne_of_lt (hlt _ (List.mem_append.mpr (Or.inl (List.mem_map_of_mem _ hw))))
  have hids : (mapSet s.activeTimers T).map Timer.id =
      s.activeTimers.map Timer.id ++ [T.id] :=
    keyedSet_map_key_of_not_mem Timer.id s.activeTimers T hfresh
  have hNa : T.id ∉ s.activeTimers.map Timer.id := by
    intro hc
    obtain ⟨w, hw, hwid⟩ := List.mem_map.mp hc
    exact hfresh w hw hwid
  have hNh : T.id ∉ s.timerHistory.map Timer.id := by
    intro hc
    have := hlt _ (List.mem_append.mpr (Or.inr hc))
    rw [hTid] at this
    exact lt_irrefl _ this
  refine ⟨?_, ?_, ?_, ?_, hhist⟩
  · show ((mapSet s.activeTimers T).map Timer.id ++ s.timerHistory.map Timer.id).Nodup
    rw [hids, List.nodup_append]
    have h0 := hnd
    rw [show storeIds s = s.activeTimers.map Timer.id ++ s.timerHistory.map Timer.id
      from rfl, List.nodup_append] at h0
    obtain ⟨haN, hhN, hdisj⟩ := h0
    refine ⟨?_, hhN, ?_⟩
    · rw [List.nodup_append]
      exact ⟨haN, List.nodup_singleton _, by
        intro j hj hjc
        rw [List.mem_singleton] at hjc
        exact hNa (hjc ▸ hj)⟩
    · intro j hj hjh
      rcases List.mem_append.mp hj with hc | hc
      · exact hdisj hc hjh
      · rw [List.mem_singleton] at hc
        exact hNh (hc ▸ hjh)
  · intro j hj
    show j < s.nextId + 1
    rcases List.mem_append.mp hj with hc | hc
    · rw [hids] at hc
      rcases List.mem_append.mp hc with hc2 | hc2
      · exact Nat.lt_succ_of_lt (hlt j (List.mem_append.mpr (Or.inl hc2)))
      · rw [List.mem_singleton] at hc2
        rw [hc2, hTid]
        exact Nat.lt_succ_self _
    · exact Nat.lt_succ_of_lt (hlt j (List.mem_append.mpr (Or.inr hc)))
  · intro j hj
    show j ∈ (mapSet s.activeTimers T).map Timer.id ++ s.timerHistory.map Timer.id
    rw [hids]
    rcases Nat.lt_succ_iff_lt_or_eq.mp hj with hc | hc
    · rcases List.mem_append.mp (hcm j hc) with hc2 | hc2
      · exact List.mem_append.mpr (Or.inl (List.mem_append.mpr (Or.inl hc2)))
      · exact List.mem_append.mpr (Or.inr hc2)
    · refine List.mem_append.mpr (Or.inl (List.mem_append.mpr (Or.inr ?_)))
      rw [List.mem_singleton, hc, hTid]
  · intro u hu
    rcases mem_keyedSet Timer.id s.activeTimers T u hu with h1 | h1
    · exact Or.inl (h1 ▸ hTstat)
    · exact hact u h1

theorem storeInv_createTimer (n : String) (d : ℚ) (now : Nat) (s : StoreState)
    (hinv : StoreInv s) :
    StoreInv (createTimer n d now s).2 ∧
    (createTimer n d now s).2.timerHistory = s.timerHistory :=
  ⟨storeInv_insert_fresh s _ rfl rfl hinv, rfl⟩

theorem storeInv_pauseTimer (i : Nat) (s : StoreState) (hinv : StoreInv s) :
    StoreInv (pauseTimer i s).2 ∧ (pauseTimer i s).2.timerHistory = s.timerHistory := by
  cases hget : mapGet s.activeTimers i with
  | none =>
    have h : pauseTimer i s = (false, s) := by simp [pauseTimer, hget]
    rw [h]
    exact ⟨hinv, rfl⟩
  | some t =>
    by_cases hst : t.status = TimerStatus.running
    · have h : pauseTimer i s = (true, { s with
          activeTimers := mapSet s.activeTimers { t with status := TimerStatus.paused } }) := by
        simp [pauseTimer, hget, hst]
      rw [h]
      exact ⟨storeInv_mapSet_active s i t _ hget rfl (Or.inr rfl) hinv, rfl⟩
    · have h : pauseTimer i s = (false, s) := by simp [pauseTimer, hget, hst]
      rw [h]
      exact ⟨hinv, rfl⟩

theorem storeInv_resumeTimer (i : Nat) (s : StoreState) (hinv : StoreInv s) :
    StoreInv (resumeTimer i s).2 ∧ (resumeTimer i s).2.timerHistory = s.timerHistory := by
  cases hget : mapGet s.activeTimers i with
  | none =>
    have h : resumeTimer i s = (false, s) := by simp [resumeTimer, hget]
    rw [h]
    exact ⟨hinv, rfl⟩
  | some t =>
    by_cases hst : t.status = TimerStatus.paused
    · have h : resumeTimer i s = (true, { s with
          activeTimers := mapSet s.activeTimers { t with status := TimerStatus.running } }) := by
        simp [resumeTimer, hget, hst]
      rw [h]
      exact ⟨storeInv_mapSet_active s i t _ hget rfl (Or.inl rfl) hinv, rfl⟩
    · have h : resumeTimer i s = (false, s) := by simp [resumeTimer, hget, hst]
      rw [h]
      exact ⟨hinv, rfl⟩

theorem storeInv_stopTimer (i now : Nat) (s : StoreState) (hinv : StoreInv s) :
    StoreInv (stopTimer i now s).2 ∧
    ∃ l, (stopTimer i now s).2.timerHistory = s.timerHistory ++ l := by
  cases hget : mapGet s.activeTimers i with
  | none =>
    have h : stopTimer i now s = (false, s) := by simp [stopTimer, hget]
    rw [h]
    exact ⟨hinv, [], by simp⟩
  | some t =>
    by_cases hst : t.status = TimerStatus.running ∨ t.status = TimerStatus.paused
    · have h : stopTimer i now s = (true, { s with
          activeTimers := mapDelete (mapSet s.activeTimers { t with status := TimerStatus.stopped, completedAt := some now }) i
          timerHistory := s.timerHistory ++ [{ t with status := TimerStatus.stopped, completedAt := some now }] }) := by
        simp only [stopTimer, hget]
        rw [if_pos hst]
      rw [h]
      exact ⟨storeInv_move s i t _ hget rfl (Or.inl rfl) hinv, [_], rfl⟩
    · have h : stopTimer i now s = (false, s) := by
        simp only [stopTimer, hget]
        rw [if_neg hst]
      rw [h]
      exact ⟨hinv, [], by simp⟩

theorem storeInv_completeTimer (i now : Nat) (s : StoreState) (hinv : StoreInv s) :
    StoreInv (completeTimer i now s).2 ∧
    ∃ l, (completeTimer i now s).2.timerHistory = s.timerHistory ++ l := by
  cases hget : mapGet s.activeTimers i with
  | none =>
    have h : completeTimer i now s = (false, s) := by simp [completeTimer, hget]
    rw [h]
    exact ⟨hinv, [], by simp⟩
  | some t =>
    by_cases hst : t.status = TimerStatus.running
    · have h : completeTimer i now s = (true, { s with
          activeTimers := mapDelete (mapSet s.activeTimers { t with status := TimerStatus.completed, remainingSeconds := 0, completedAt := some now }) i
          timerHistory := s.timerHistory ++ [{ t with status := TimerStatus.completed, remainingSeconds := 0, completedAt := some now }] }) := by
        simp only [completeTimer, hget]
        rw [if_pos hst]
      rw [h]
      exact ⟨storeInv_move s i t _ hget rfl (Or.inr rfl) hinv, [_], rfl⟩
    · have h : completeTimer i now s = (false, s) := by
        simp only [completeTimer, hget]
        rw [if_neg hst]
      rw [h]
      exact ⟨hinv, [], by simp⟩

theorem storeInv_updateTimer (i now : Nat) (s : StoreState) (hinv : StoreInv s) :
    StoreInv (updateTimer i now s).2 ∧
    ∃ l, (updateTimer i now s).2.timerHistory = s.timerHistory ++ l := by
  cases hget : mapGet s.activeTimers i with
  | none =>
    have h : updateTimer i now s = (false, s) := by simp [updateTimer, hget]
    rw [h]
    exact ⟨hinv, [], by simp⟩
  | some t =>
    by_cases hcond : t.status = TimerStatus.running ∧ 0 < t.remainingSeconds
    · have hinv' : StoreInv { s with
          activeTimers := mapSet s.activeTimers { t with remainingSeconds := t.remainingSeconds - 1 } } :=
        storeInv_mapSet_active s i t _ hget rfl (Or.inl hcond.1) hinv
      by_cases hdec : t.remainingSeconds - 1 ≤ 0
      · have hru : updateTimer i now s = completeTimer i now ({ s with
            activeTimers := mapSet s.activeTimers { t with remainingSeconds := t.remainingSeconds - 1 } }) := by
          simp only [updateTimer, hget]
          rw [if_pos hcond]
          exact if_pos hdec
        rw [hru]
        exact storeInv_completeTimer i now _ hinv'
      · have hru : updateTimer i now s = (true, { s with
            activeTimers := mapSet s.activeTimers { t with remainingSeconds := t.remainingSeconds - 1 } }) := by
          simp only [updateTimer, hget]
          rw [if_pos hcond]
          exact if_neg hdec
        rw [hru]
        exact ⟨hinv', [], by simp⟩
    · have h : updateTimer i now s = (false, s) := by
        simp only [updateTimer, hget]
        rw [if_neg hcond]
      rw [h]
      exact ⟨hinv, [], by simp⟩

theorem storeInv_applyOp (o : StoreOp) (now : Nat) (s : StoreState) (hinv : StoreInv s) :
    StoreInv (applyOp o now s) ∧
    ∃ l, (applyOp o now s).timerHistory = s.timerHistory ++ l := by
  cases o with
  | create n d =>
    obtain ⟨h1, h2⟩ := storeInv_createTimer n d now s hinv
    exact ⟨h1, [], by simp [applyOp, h2]⟩
  | pause i =>
    obtain ⟨h1, h2⟩ := storeInv_pauseTimer i s hinv
    exact ⟨h1, [], by simp [applyOp, h2]⟩
  | resume i =>
    obtain ⟨h1, h2⟩ := storeInv_resumeTimer i s hinv
    exact ⟨h1, [], by simp [applyOp, h2]⟩
  | stop i =>
    obtain ⟨h1, l, h2⟩ := storeInv_stopTimer i now s hinv
    exact ⟨h1, l, by simp [applyOp, h2]⟩
  | tick i =>
    obtain ⟨h1, l, h2⟩ := storeInv_updateTimer i now s hinv
    exact ⟨h1, l, by simp [applyOp, h2]⟩

theorem storeInv_runOps (ops : List (StoreOp × Nat)) (s : StoreState) (hinv : StoreInv s) :
    StoreInv (runOps ops s) := by
  induction ops generalizing s with
  | nil => exact hinv
  | cons p rest ih =>
    exact ih _ (storeInv_applyOp p.1 p.2 s hinv).1

/-! ### Claim C3 — active/history partition and append-only history -/

/-- C3: after any sequence of store operations from the initial state,
every allocated timer id belongs to exactly one of the active set and the
history (the combined id list has no duplicates — never both — and contains
every allocated id — never neither); active statuses are only
`running`/`paused`, history statuses only `stopped`/`completed`; and no
further operation ever removes or replaces an existing history entry (the
history only ever grows by a suffix). -/
theorem claim3_partition_invariant (ops : List (StoreOp × Nat)) (o : StoreOp) (now : Nat) :
    (storeIds (runOps ops initialState)).Nodup ∧
    (∀ i, i < (runOps ops initialState).nextId ↔ i ∈ storeIds (runOps ops initialState)) ∧
    (∀ t ∈ (runOps ops initialState).activeTimers,
      t.status = TimerStatus.running ∨ t.status = TimerStatus.paused) ∧
    (∀ t ∈ (runOps ops initialState).timerHistory,
      t.status = TimerStatus.stopped ∨ t.status = TimerStatus.completed) ∧
    (∃ l, (applyOp o now (runOps ops initialState)).timerHistory =
      (runOps ops initialState).timerHistory ++ l) := by
  have hinv := storeInv_runOps ops initialState storeInv_initial
  obtain ⟨hnd, hlt, hcm, hact, hhist⟩ := hinv
  refine ⟨hnd, ?_, hact, hhist, ?_⟩
  · intro i
    exact ⟨hcm i, hlt i⟩
  · exact (storeInv_applyOp o now _ ⟨hnd, hlt, hcm, hact, hhist⟩).2

theorem activeInt_createTimer (n : String) (d : ℚ) (now : Nat) (s : StoreState)
    (hd : 1 ≤ d ∧ d.den = 1) (hinv : ActiveIntInv s) :
    ActiveIntInv (createTimer n d now s).2 := by
  intro u hu
  rcases mem_keyedSet Timer.id s.activeTimers _ u hu with h1 | h1
  · rw [h1]
    exact hd
  · exact hinv u h1

theorem activeInt_pauseTimer (i : Nat) (s : StoreState) (hinv : ActiveIntInv s) :
    ActiveIntInv (pauseTimer i s).2 := by
  cases hget : mapGet s.activeTimers i with
  | none =>
    have h : pauseTimer i s = (false, s) := by simp [pauseTimer, hget]
    rw [h]
    exact hinv
  | some t =>
    obtain ⟨hmem, hid⟩ := keyedGet_eq_some Timer.id s.activeTimers i t hget
    by_cases hst : t.status = TimerStatus.running
    · have h : pauseTimer i s = (true, { s with
          activeTimers := mapSet s.activeTimers { t with status := TimerStatus.paused } }) := by
        simp [pauseTimer, hget, hst]
      rw [h]
      intro u hu
      rcases mem_keyedSet Timer.id s.activeTimers _ u hu with h1 | h1
      · rw [h1]
        exact hinv t hmem
      · exact hinv u h1
    · have h : pauseTimer i s = (false, s) := by simp [pauseTimer, hget, hst]
      rw [h]
      exact hinv

theorem activeInt_resumeTimer (i : Nat) (s : StoreState) (hinv : ActiveIntInv s) :
    ActiveIntInv (resumeTimer i s).2 := by
  cases hget : mapGet s.activeTimers i with
  | none =>
    have h : resumeTimer i s = (false, s) := by simp [resumeTimer, hget]
    rw [h]
    exact hinv
  | some t =>
    obtain ⟨hmem, hid⟩ := keyedGet_eq_some Timer.id s.activeTimers i t hget
    by_cases hst : t.status = TimerStatus.paused
    · have h : resumeTimer i s = (true, { s with
          activeTimers := mapSet s.activeTimers { t with status := TimerStatus.running } }) := by
        simp [resumeTimer, hget, hst]
      rw [h]
      intro u hu
      rcases mem_keyedSet Timer.id s.activeTimers _ u hu with h1 | h1
      · rw [h1]
        exact hinv t hmem
      · exact hinv u h1
    · have h : resumeTimer i s = (false, s) := by simp [resumeTimer, hget, hst]
      rw [h]
      exact hinv

theorem activeInt_stopTimer (i now : Nat) (s : StoreState) (hinv : ActiveIntInv s) :
    ActiveIntInv (stopTimer i now s).2 := by
  cases hget : mapGet s.activeTimers i with
  | none =>
    have h : stopTimer i now s = (false, s) := by simp [stopTimer, hget]
    rw [h]
    exact hinv
  | some t =>
    obtain ⟨hmem, hid⟩ := keyedGet_eq_some Timer.id s.activeTimers i t hget
    by_cases hst : t.status = TimerStatus.running ∨ t.status = TimerStatus.paused
    · have h : stopTimer i now s = (true, { s with
          activeTimers := mapDelete (mapSet s.activeTimers { t with status := TimerStatus.stopped, completedAt := some now }) i
          timerHistory := s.timerHistory ++ [{ t with status := TimerStatus.stopped, completedAt := some now }] }) := by
        simp only [stopTimer, hget]
        rw [if_pos hst]
      rw [h]
      intro u hu
      have hu1 := mem_keyedDelete Timer.id _ i u hu
      rcases mem_keyedSet Timer.id s.activeTimers _ u hu1 with h1 | h1
      · rw [h1]
        exact hinv t hmem
      · exact hinv u h1
    · have h : stopTimer i now s = (false, s) := by
        simp only [stopTimer, hget]
        rw [if_neg hst]
      rw [h]
      exact hinv

theorem activeInt_updateTimer (i now : Nat) (s : StoreState)
    (hnd : (s.activeTimers.map Timer.id).Nodup) (hinv : ActiveIntInv s) :
    ActiveIntInv (updateTimer i now s).2 := by
  cases hget : mapGet s.activeTimers i with
  | none =>
    have h : updateTimer i now s = (false, s) := by simp [updateTimer, hget]
    rw [h]
    exact hinv
  | some t =>
    obtain ⟨hmem, hid⟩ := keyedGet_eq_some Timer.id s.activeTimers i t hget
    by_cases hcond : t.status = TimerStatus.running ∧ 0 < t.remainingSeconds
    · have hden : t.remainingSeconds.den = 1 := (hinv t hmem).2
      have hden' : (t.remainingSeconds - 1).den = 1 := rat_int_sub_one_den _ hden
      by_cases hdec : t.remainingSeconds - 1 ≤ 0
      · have hg2 : mapGet (mapSet s.activeTimers
            { t with remainingSeconds := t.remainingSeconds - 1 }) i =
            some { t with remainingSeconds := t.remainingSeconds - 1 } := by
          rw [← hid]
          exact keyedGet_keyedSet_self Timer.id s.activeTimers _
        have hru : updateTimer i now s = completeTimer i now ({ s with
            activeTimers := mapSet s.activeTimers { t with remainingSeconds := t.remainingSeconds - 1 } }) := by
          simp only [updateTimer, hget]
          rw [if_pos hcond]
          exact if_pos hdec
        have hco : completeTimer i now ({ s with
            activeTimers := mapSet s.activeTimers { t with remainingSeconds := t.remainingSeconds - 1 } }) = (true, { s with
            activeTimers := mapDelete (mapSet (mapSet s.activeTimers { t with remainingSeconds := t.remainingSeconds - 1 }) { t with status := TimerStatus.completed, remainingSeconds := 0, completedAt := some now }) i
            timerHistory := s.timerHistory ++ [{ t with status := TimerStatus.completed, remainingSeconds := 0, completedAt := some now }] }) := by
          have hg2b : mapGet (mapSet s.activeTimers { t with remainingSeconds := t.remainingSeconds - 1, status := TimerStatus.running }) i = some { t with remainingSeconds := t.remainingSeconds - 1, status := TimerStatus.running } := by
            rw [← hid]
            exact keyedGet_keyedSet_self Timer.id s.activeTimers _
          simp [completeTimer, hcond.1, hg2b]
        rw [hru, hco]
        intro u hu
        have hids1 : ((mapSet s.activeTimers { t with remainingSeconds := t.remainingSeconds - 1 }).map Timer.id) = s.activeTimers.map Timer.id :=
          keyedSet_map_key_of_mem Timer.id s.activeTimers _ ⟨t, hmem, rfl⟩
        have hmem2 : ({ t with remainingSeconds := t.remainingSeconds - 1 } : Timer) ∈ mapSet s.activeTimers { t with remainingSeconds := t.remainingSeconds - 1 } :=
          (keyedGet_eq_some Timer.id _ i _ hg2).1
        have hnd2 : ((mapSet (mapSet s.activeTimers { t with remainingSeconds := t.remainingSeconds - 1 }) { t with status := TimerStatus.completed, remainingSeconds := 0, completedAt := some now }).map Timer.id).Nodup := by
          show ((keyedSet Timer.id (mapSet s.activeTimers { t with remainingSeconds := t.remainingSeconds - 1 }) { t with status := TimerStatus.completed, remainingSeconds := 0, completedAt := some now }).map Timer.id).Nodup
          rw [keyedSet_map_key_of_mem Timer.id (mapSet s.activeTimers { t with remainingSeconds := t.remainingSeconds - 1 }) { t with status := TimerStatus.completed, remainingSeconds := 0, completedAt := some now } ⟨{ t with remainingSeconds := t.remainingSeconds - 1 }, hmem2, rfl⟩]
          rw [hids1]
          exact hnd
        obtain ⟨hu1, hu2⟩ := (mem_keyedDelete_iff Timer.id _ i u hnd2).mp hu
        rcases mem_keyedSet Timer.id _ _ u hu1 with h1 | h1
        · exact absurd (by rw [h1]; exact hid) hu2
        · rcases mem_keyedSet Timer.id s.activeTimers _ u h1 with h2 | h2
          · exact absurd (by rw [h2]; exact hid) hu2
          · exact hinv u h2
      · have hru : updateTimer i now s = (true, { s with
            activeTimers := mapSet s.activeTimers { t with remainingSeconds := t.remainingSeconds - 1 } }) := by
          simp only [updateTimer, hget]
          rw [if_pos hcond]
          exact if_neg hdec
        rw [hru]
        intro u hu
        rcases mem_keyedSet Timer.id s.activeTimers _ u hu with h1 | h1
        · rw [h1]
          refine ⟨?_, hden'⟩
          exact rat_int_pos_ge_one _ hden' (lt_of_not_ge hdec)
        · exact hinv u h1
    · have h : updateTimer i now s = (false, s) := by
        simp only [updateTimer, hget]
        rw [if_neg hcond]
      rw [h]
      exact hinv

theorem activeInt_applyOp (o : StoreOp) (now : Nat) (s : StoreState)
    (h : createArgOk o = true) (hinv : StoreInv s) (hint : ActiveIntInv s) :
    ActiveIntInv (applyOp o now s) := by
  cases o with
  | create n d =>
    have hd : 1 ≤ d ∧ d.den = 1 := by
      simp only [createArgOk, Bool.and_eq_true, decide_eq_true_eq, beq_iff_eq] at h
      exact h
    exact activeInt_createTimer n d now s hd hint
  | pause i => exact activeInt_pauseTimer i s hint
  | resume i => exact activeInt_resumeTimer i s hint
  | stop i => exact activeInt_stopTimer i now s hint
  | tick i =>
    have hnd : (s.activeTimers.map Timer.id).Nodup := by
      have h0 : ((s.activeTimers.map Timer.id) ++ (s.timerHistory.map Timer.id)).Nodup :=
        hinv.1
      exact h0.of_append_left
    exact activeInt_updateTimer i now s hnd hint

theorem activeInt_runOps (ops : List (StoreOp × Nat)) (s : StoreState)
    (hops : ∀ p ∈ ops, createArgOk p.1 = true)
    (hinv : StoreInv s) (hint : ActiveIntInv s) :
    ActiveIntInv (runOps ops s) := by
  induction ops generalizing s with
  | nil => exact hint
  | cons p rest ih =>
    exact ih _ (fun q hq => hops q (List.mem_cons_of_mem _ hq))
      (storeInv_applyOp p.1 p.2 s hinv).1
      (activeInt_applyOp p.1 p.2 s (hops p (List.mem_cons_self _ _)) hinv hint)

/-! ### Claim C10 — a zero-remaining timer is never observable in the active set -/

/-- C10: if every `create` in the operation sequence carries an integral
duration ≥ 1, then after any sequence of create/pause/resume/stop/tick
operations from the initial state, every timer in the active set has
`remainingSeconds ≥ 1`: the tick that brings a timer to 0 completes it and
moves it to history in the same step, so a zero-remaining timer is never
observable in the active set. -/
theorem claim10_active_remaining_positive (ops : List (StoreOp × Nat))
    (h : ∀ p ∈ ops, createArgOk p.1 = true) :
    ∀ t ∈ (runOps ops initialState).activeTimers, 1 ≤ t.remainingSeconds := by
  intro t ht
  have hint : ActiveIntInv initialState := by
    intro u hu
    simp [initialState] at hu
  exact (activeInt_runOps ops initialState h storeInv_initial hint t ht).1

/-- C10 (witness): the sample operation sequence satisfies the create-site
assumption, so the invariant holds at its final state. -/
theorem claim10_witness :
    (∀ p ∈ sampleOps, createArgOk p.1 = true) ∧
    (∀ t ∈ (runOps sampleOps initialState).activeTimers, 1 ≤ t.remainingSeconds) :=
  ⟨by decide, claim10_active_remaining_positive sampleOps (by decide)⟩

theorem recon_no_i (server : List WTimer) (now : Nat) (l : List WTimer) (i : Nat)
    (hli : ∀ u ∈ l, u.id ≠ i) :
    (∀ u ∈ (reconcileRemovals server now l).1, u.id ≠ i) ∧
    ((reconcileRemovals server now l).2.1.filter (fun h => h.id == i)) = [] ∧
    ((reconcileRemovals server now l).2.2.count i) = 0 := by
  induction l with
  | nil => exact ⟨fun u hu => absurd hu (List.not_mem_nil u), rfl, rfl⟩
  | cons w rest ih =>
    have hw : w.id ≠ i := hli w (List.mem_cons_self _ _)
    obtain ⟨ih1, ih2, ih3⟩ := ih (fun u hu => hli u (List.mem_cons_of_mem _ hu))
    simp only [reconcileRemovals]
    by_cases hs : server.any (fun st => st.id == w.id)
    · rw [if_pos hs]
      refine ⟨?_, ih2, ih3⟩
      intro u hu
      rcases List.mem_cons.mp hu with h1 | h1
      · exact h1 ▸ hw
      · exact ih1 u h1
    · rw [if_neg hs]
      by_cases hr : w.status = TimerStatus.running
      · rw [if_pos hr]
        refine ⟨ih1, ?_, ?_⟩
        · rw [List.filter_cons]
          rw [if_neg (by simpa [completedEntry] using hw)]
          exact ih2
        · rw [List.count_cons]
          simp [hw, ih3]
      · rw [if_neg hr]
        exact ⟨ih1, ih2, ih3⟩

theorem recon_found (server : List WTimer) (now : Nat) (l : List WTimer) (i : Nat)
    (t : WTimer) (hnd : (l.map WTimer.id).Nodup) (hget : wGet l i = some t)
    (hserv : ∀ st ∈ server, st.id ≠ i) :
    (∀ u ∈ (reconcileRemovals server now l).1, u.id ≠ i) ∧
    ((reconcileRemovals server now l).2.1.filter (fun h => h.id == i)) =
      (if t.status = TimerStatus.running then [completedEntry t now] else []) ∧
    ((reconcileRemovals server now l).2.2.count i) =
      (if t.status = TimerStatus.running then 1 else 0) := by
  induction l with
  | nil => simp [wGet, keyedGet] at hget
  | cons w rest ih =>
    simp only [List.map_cons, List.nodup_cons] at hnd
    by_cases hw : w.id = i
    · have ht : t = w := by
        rw [wGet, keyedGet, if_pos (by simpa using hw)] at hget
        exact (Option.some_injective _ hget).symm
      have hrest : ∀ u ∈ rest, u.id ≠ i := by
        intro u hu hui
        exact hnd.1 (hw ▸ hui ▸ List.mem_map_of_mem WTimer.id hu)
      obtain ⟨hr1, hr2, hr3⟩ := recon_no_i server now rest i hrest
      have hs : ¬ (server.any (fun st => st.id == w.id) = true) := by
        rw [List.any_eq_true]
        rintro ⟨st, hst, hsti⟩
        exact hserv st hst (by simpa [hw] using hsti)
      simp only [reconcileRemovals]
      rw [if_neg hs]
      by_cases hr : w.status = TimerStatus.running
      · rw [if_pos hr]
        refine ⟨hr1, ?_, ?_⟩
        · rw [List.filter_cons]
          rw [if_pos (by simpa [completedEntry] using hw)]
          rw [hr2, ht]
          simp [hr]
        · rw [List.count_cons]
          rw [ht]
          simp [hr, hw, hr3]
      · rw [if_neg hr]
        refine ⟨hr1, ?_, ?_⟩
        · rw [hr2, ht]
          simp [hr]
        · rw [hr3, ht]
          simp [hr]
    · have hget' : wGet rest i = some t := by
        rw [wGet, keyedGet, if_neg (by simpa using hw)] at hget
        exact hget
      obtain ⟨ih1, ih2, ih3⟩ := ih hnd.2 hget'
      simp only [reconcileRemovals]
      by_cases hs : server.any (fun st => st.id == w.id)
      · rw [if_pos hs]
        refine ⟨?_, ih2, ih3⟩
        intro u hu
        rcases List.mem_cons.mp hu with h1 | h1
        · exact h1 ▸ hw
        · exact ih1 u h1
      · rw [if_neg hs]
        by_cases hr : w.status = TimerStatus.running
        · rw [if_pos hr]
          refine ⟨ih1, ?_, ?_⟩
          · rw [List.filter_cons]
            rw [if_neg (by simpa [completedEntry] using hw)]
            exact ih2
          · rw [List.count_cons]
            simp [hw, ih3]
        · rw [if_neg hr]
          exact ⟨ih1, ih2, ih3⟩

theorem upsert_no_i (server : List WTimer) (acc : List WTimer) (i : Nat)
    (hserv : ∀ st ∈ server, st.id ≠ i) (hacc : ∀ u ∈ acc, u.id ≠ i) :
    ∀ u ∈ upsertFromServer server acc, u.id ≠ i := by
  induction server generalizing acc with
  | nil => exact hacc
  | cons st rest ih =>
    have hsti : st.id ≠ i := hserv st (List.mem_cons_self _ _)
    have hstep : ∀ acc2 : List WTimer, (∀ u ∈ acc2, u.id ≠ i) →
        ∀ u ∈ wSet acc2 st, u.id ≠ i := by
      intro acc2 h2 u hu
      rcases mem_keyedSet WTimer.id acc2 st u hu with h1 | h1
      · exact h1 ▸ hsti
      · exact h2 u h1
    have hacc' : ∀ u ∈ upsertStep acc st, u.id ≠ i := by
      cases hg : wGet acc st.id with
      | none =>
        have h : upsertStep acc st = wSet acc st := by simp [upsertStep, hg]
        rw [h]
        exact hstep acc hacc
      | some lt =>
        by_cases hdiff : lt.remainingSeconds ≠ st.remainingSeconds ∨ lt.status ≠ st.status
        · have h : upsertStep acc st = wSet acc st := by
            simp only [upsertStep, hg]
            rw [if_pos hdiff]
          rw [h]
          exact hstep acc hacc
        · have h : upsertStep acc st = acc := by
            simp only [upsertStep, hg]
            rw [if_neg hdiff]
          rw [h]
          exact hacc
    show ∀ u ∈ upsertFromServer (st :: rest) acc, u.id ≠ i
    have hcons : upsertFromServer (st :: rest) acc = upsertFromServer rest (upsertStep acc st) := rfl
    rw [hcons]
    exact ih (upsertStep acc st) (fun q hq => hserv q (List.mem_cons_of_mem _ hq)) hacc'

/-! ### Claim C9 — widget sync reconciliation -/

/-- C9: on a sync whose fetched active set lacks the id of a locally-known
active timer, the timer is removed from the local active set regardless of
its prior status (also surviving the subsequent upsert, since the server
set does not contain its id); if its last known local status was `running`,
exactly one synthesized completed history entry for it is appended (the
entries with its id are exactly the fetched ones plus that single entry)
and the completion notification fires exactly once for it; with any other
prior status, no entry is synthesized and no notification fires. -/
theorem claim9_sync_reconciliation (serverActive : List WTimer)
    (serverHistory : List WHistory) (now : Nat) (w : WidgetState) (i : Nat) (t : WTimer)
    (hnd : (w.activeTimers.map WTimer.id).Nodup)
    (hget : wGet w.activeTimers i = some t)
    (habs : ∀ st ∈ serverActive, st.id ≠ i) :
    wGet (syncWithServer serverActive serverHistory now w).1.activeTimers i = none ∧
    (t.status = TimerStatus.running →
      ((syncWithServer serverActive serverHistory now w).1.timerHistory.filter
        (fun h => h.id == i)) =
        (serverHistory.filter (fun h => h.id == i)) ++ [completedEntry t now] ∧
      ((syncWithServer serverActive serverHistory now w).2.count i) = 1) ∧
    (t.status ≠ TimerStatus.running →
      ((syncWithServer serverActive serverHistory now w).1.timerHistory.filter
        (fun h => h.id == i)) = serverHistory.filter (fun h => h.id == i) ∧
      ((syncWithServer serverActive serverHistory now w).2.count i) = 0) := by
  obtain ⟨hk, hf, hc⟩ := recon_found serverActive now w.activeTimers i t hnd hget habs
  refine ⟨?_, ?_, ?_⟩
  · show keyedGet WTimer.id
      (upsertFromServer serverActive (reconcileRemovals serverActive now w.activeTimers).1)
      i = none
    apply (keyedGet_eq_none_iff WTimer.id _ i).mpr
    exact upsert_no_i serverActive _ i habs hk
  · intro hrun
    constructor
    · show ((serverHistory ++ (reconcileRemovals serverActive now w.activeTimers).2.1).filter
        (fun h => h.id == i)) = _
      rw [List.filter_append, hf]
      simp [hrun]
    · show ((reconcileRemovals serverActive now w.activeTimers).2.2.count i) = 1
      rw [hc]
      simp [hrun]
  · intro hrun
    constructor
    · show ((serverHistory ++ (reconcileRemovals serverActive now w.activeTimers).2.1).filter
        (fun h => h.id == i)) = _
      rw [List.filter_append, hf]
      simp [hrun]
    · show ((reconcileRemovals serverActive now w.activeTimers).2.2.count i) = 0
      rw [hc]
      simp [hrun]

/-- C9 (witness): the next sync reports X absent from the server's active
set; the local history gains exactly one completed entry for X, the sound
fires once, and X leaves the local active list. -/
theorem claim9_witness :
    (sampleWidget.activeTimers.map WTimer.id).Nodup ∧
    wGet sampleWidget.activeTimers 7 = some sampleWTimer ∧
    (∀ st ∈ ([] : List WTimer), st.id ≠ 7) ∧
    (wGet (syncWithServer [] [] 99 sampleWidget).1.activeTimers 7 = none ∧
      (sampleWTimer.status = TimerStatus.running →
        ((syncWithServer [] [] 99 sampleWidget).1.timerHistory.filter
          (fun h => h.id == 7)) =
          (([] : List WHistory).filter (fun h => h.id == 7)) ++
            [completedEntry sampleWTimer 99] ∧
        ((syncWithServer [] [] 99 sampleWidget).2.count 7) = 1) ∧
      (sampleWTimer.status ≠ TimerStatus.running →
        ((syncWithServer [] [] 99 sampleWidget).1.timerHistory.filter
          (fun h => h.id == 7)) = ([] : List WHistory).filter (fun h => h.id == 7) ∧
        ((syncWithServer [] [] 99 sampleWidget).2.count 7) = 0)) :=
  ⟨by decide, by decide, by decide,
    claim9_sync_reconciliation [] [] 99 sampleWidget 7 sampleWTimer
      (by decide) (by decide) (by decide)⟩

/-- C1 (amended, witness): concrete instances — an absent duration is
rejected, and the failure condition evaluated at duration 1. -/
theorem claim1_witness :
    startTimerRestRoute "T" none 0 initialState = none ∧
    (startTimerRestRoute "T" (some 1) 0 initialState = none ↔
      ((1 : ℚ) ≤ 0 ∨ 7200 < (1 : ℚ))) :=
  ⟨(claim1_startTimer_invalid_iff "T" 0 initialState).1,
    (claim1_startTimer_invalid_iff "T" 0 initialState).2 1⟩

/-- C3 (witness): the partition invariant instantiated at the sample
operation sequence and a further create. -/
theorem claim3_witness :
    (storeIds (runOps sampleOps initialState)).Nodup ∧
    (∀ i, i < (runOps sampleOps initialState).nextId ↔
      i ∈ storeIds (runOps sampleOps initialState)) ∧
    (∀ t ∈ (runOps sampleOps initialState).activeTimers,
      t.status = TimerStatus.running ∨ t.status = TimerStatus.paused) ∧
    (∀ t ∈ (runOps sampleOps initialState).timerHistory,
      t.status = TimerStatus.stopped ∨ t.status = TimerStatus.completed) ∧
    (∃ l, (applyOp (StoreOp.create "C" 5) 9 (runOps sampleOps initialState)).timerHistory =
      (runOps sampleOps initialState).timerHistory ++ l) :=
  claim3_partition_invariant sampleOps (StoreOp.create "C" 5) 9
